import Mathlib

/-!
Verification of the bitswap want-manager core
(`exchange/bitswap/wantmanager.go`): the process-wide want list, the
per-peer message queues, the coordinator loop and the block dispatch
path, shallowly embedded as executable Lean definitions.

Peer identifiers and content identifiers are opaque comparable values in
the source; we embed both as `Nat`.
-/

set_option autoImplicit false

/-- Entry of a want list: `wantlist.Entry` carries a content id, a signed
priority and a reference count (`Cid`, `Priority`, `RefCnt`). -/
structure WEntry where
  cid : Nat
  priority : Int
  refCnt : Int
deriving Repr, DecidableEq

/-- Modelled from the spec: the `wantlist` package is not under `src/`.
Membership test of a content id in a want list (mapping with unique keys,
represented as an association list of entries). -/
def wlMem (w : List WEntry) (c : Nat) : Bool :=
  w.any (fun x => x.cid = c)

/-- Modelled from the spec: the `wantlist` package is not under `src/`.
`Add` "merges a want (increments/creates; returns whether the id
transitioned from absent/zero-refcount to active)".  The priority kept on
a repeated want is the existing one (the spec leaves the merge policy
open). -/
def wlAddEntry (w : List WEntry) (e : WEntry) : List WEntry × Bool :=
  if wlMem w e.cid then
    (w.map (fun x => if x.cid = e.cid then { x with refCnt := x.refCnt + 1 } else x), false)
  else (w ++ [e], true)

/-- Modelled from the spec: `Add(cid, priority)` is `Add` with a fresh
entry of reference count one. -/
def wlAdd (w : List WEntry) (c : Nat) (pri : Int) : List WEntry × Bool :=
  wlAddEntry w ⟨c, pri, 1⟩

/-- Modelled from the spec: `Remove` "decrements/deletes (returns whether
the id became fully inactive)"; removing an absent id reports `false`. -/
def wlRemove (w : List WEntry) (c : Nat) : List WEntry × Bool :=
  match w.find? (fun x => x.cid = c) with
  | none => (w, false)
  | some e =>
    if e.refCnt - 1 ≤ 0 then (w.filter (fun x => ¬ x.cid = c), true)
    else (w.map (fun x => if x.cid = c then { x with refCnt := x.refCnt - 1 } else x), false)

/-- Modelled from the spec: the `bsmsg` package is not under `src/`.  A
bitswap message is built as "full" or "incremental" and accumulates
want entries (`AddEntry(id, priority)`), cancels (`Cancel(id)`) and block
payloads (`AddBlock(block)`). -/
structure BitSwapMessage where
  full : Bool
  wants : List (Nat × Int)
  cancels : List Nat
  blocks : List Nat
deriving Repr, DecidableEq

/-- Modelled from the spec: `bsmsg.New(full)` is the empty message. -/
def bsmsgNew (full : Bool) : BitSwapMessage :=
  { full := full, wants := [], cancels := [], blocks := [] }

/-- Modelled from the spec: `msg.AddEntry(id, priority)`. -/
def msgAddEntry (m : BitSwapMessage) (c : Nat) (pri : Int) : BitSwapMessage :=
  { m with wants := m.wants ++ [(c, pri)] }

/-- Modelled from the spec: `msg.Cancel(id)`. -/
def msgCancel (m : BitSwapMessage) (c : Nat) : BitSwapMessage :=
  { m with cancels := m.cancels ++ [c] }

/-- Modelled from the spec: `msg.AddBlock(block)`. -/
def msgAddBlock (m : BitSwapMessage) (b : Nat) : BitSwapMessage :=
  { m with blocks := m.blocks ++ [b] }

/-- Modelled from the spec: `msg.Empty()` — no wants and no cancels (and
no blocks) recorded. -/
def msgEmpty (m : BitSwapMessage) : Bool :=
  m.wants.isEmpty && m.cancels.isEmpty && m.blocks.isEmpty

/-- `bsmsg.Entry`: a want-list entry together with the cancel flag. -/
structure MsgEntry where
  cancel : Bool
  entry : WEntry
deriving Repr, DecidableEq

/-- `kMaxPriority` is declared elsewhere in the repository (outside
`src/`); its concrete value is irrelevant to every claim below, which
depend only on the differences `kMaxPriority - i`. -/
def kMaxPriority : Int := 2147483647

/-- Body of the loop of `WantManager.addEntries`: entry `i` of the batch
is built with `Cancel: cancel` and `Priority: kMaxPriority - i`,
`RefCnt: 1`. -/
def mkEntriesAux (cancel : Bool) : Nat → List Nat → List MsgEntry
  | _, [] => []
  | i, k :: ks => ⟨cancel, ⟨k, kMaxPriority - i, 1⟩⟩ :: mkEntriesAux cancel (i + 1) ks

/-- The batch of entries built by `WantManager.addEntries` from the list
of content ids `ks`. -/
def mkEntries (ks : List Nat) (cancel : Bool) : List MsgEntry :=
  mkEntriesAux cancel 0 ks

/-- `engine.Envelope`: a block payload (with its byte size), the
destination peer and a completion callback `Sent` invoked by the
consumer. -/
structure Envelope where
  block : Nat
  blockSize : Nat
  peer : Nat
deriving Repr, DecidableEq

/-- Observable effects of `WantManager.SendBlock`, in order of
occurrence. -/
inductive SBEffect where
  | observeHistogram (n : Nat)
  | sendMessage (p : Nat) (m : BitSwapMessage)
  | logSendError
  | sentCallback
deriving Repr, DecidableEq

/-- `WantManager.SendBlock`: defers `env.Sent()`, records the block size
in the sent histogram, builds a non-full message holding the block, sends
it, and logs on error; the deferred callback runs last in every case.
`sendErr` tells whether `network.SendMessage` returned an error. -/
def SendBlock (env : Envelope) (sendErr : Bool) : List SBEffect :=
  [SBEffect.observeHistogram env.blockSize,
   SBEffect.sendMessage env.peer (msgAddBlock (bsmsgNew false) env.block)] ++
  (if sendErr then [SBEffect.logSendError] else []) ++
  [SBEffect.sentCallback]

/-- Recognizer of the completion-callback effect. -/
def isSentCallback : SBEffect → Bool
  | SBEffect.sentCallback => true
  | _ => false

/-- Outcome of one asynchronous submission attempt. -/
inductive SubmitResult where
  | delivered
  | dropped
deriving Repr, DecidableEq

/-- Environment seen by a producer at its `select`: whether the
coordinator is ready to receive on `pm.incoming`, whether `pm.ctx` is
done (global shutdown), and whether the caller context is done. -/
structure SelectEnv where
  incomingReady : Bool
  pmDone : Bool
  callerDone : Bool
deriving Repr, DecidableEq

/-- The `select` at the end of `WantManager.addEntries`: its three cases
are a send on `pm.incoming`, `pm.ctx.Done()` and the caller context
`ctx.Done()`.  The result lists every case that is ready; the Go
statement blocks exactly when no case is ready, and otherwise takes one
of the ready cases nondeterministically. -/
def addEntriesSelect (env : SelectEnv) : List SubmitResult :=
  (if env.incomingReady then [SubmitResult.delivered] else []) ++
  (if env.pmDone then [SubmitResult.dropped] else []) ++
  (if env.callerDone then [SubmitResult.dropped] else [])

/-- `WantManager.WantBlocks` forwards the caller's context to
`addEntries`. -/
def wantBlocksSelect (incomingReady pmDone callerDone : Bool) : List SubmitResult :=
  addEntriesSelect ⟨incomingReady, pmDone, callerDone⟩

/-- `context.Background()` is never done. -/
def backgroundDone : Bool := false

/-- `WantManager.CancelWants` calls `addEntries` with
`context.Background()`, so its caller-context case can never fire. -/
def cancelWantsSelect (incomingReady pmDone : Bool) : List SubmitResult :=
  addEntriesSelect ⟨incomingReady, pmDone, backgroundDone⟩

/-- The `select` of `WantManager.Connected` / `WantManager.Disconnected`:
a send on the notification channel and `pm.ctx.Done()`. -/
def notifySelect (chanReady pmDone : Bool) : List SubmitResult :=
  (if chanReady then [SubmitResult.delivered] else []) ++
  (if pmDone then [SubmitResult.dropped] else [])

/-- `WantManager.ConnectedPeers` performs an unconditional blocking send
on `pm.peerReqs` followed by an unconditional receive; there is no
`pm.ctx.Done()` alternative.  `loopReceiving` tells whether the `Run`
loop is at its `select` (it is not after shutdown); `none` means the
caller blocks. -/
def connectedPeersOutcome (loopReceiving : Bool) (peerSnapshot : List Nat) :
    Option (List Nat) :=
  if loopReceiving then some peerSnapshot else none

/-- Result of one `msgQueue.doWork` send cycle. -/
inductive SendCycleResult where
  | sent
  | abandonedOpenFail
  | stoppedDuringWait
  | oracleOut
deriving Repr, DecidableEq

/-- The retry loop at the end of `msgQueue.doWork` ("try to send this
message until we fail"), driven by oracles giving the outcome of each
`sender.SendMsg` attempt (`true` = success), of each `openSender` retry
(`true` = success), and whether `done`/`ctx.Done()` fires during the
100 ms wait of each failed iteration.  Returns the cycle result and the
number of transmission attempts made on this same message.  When the
send oracle runs out the result is `oracleOut` (never reached when the
oracle is long enough for the run). -/
def sendLoop : List Bool → List Bool → List Bool → SendCycleResult × Nat
  | [], _, _ => (SendCycleResult.oracleOut, 0)
  | s :: ss, opens, stops =>
    if s then (SendCycleResult.sent, 1)
    else
      match stops with
      | [] => (SendCycleResult.oracleOut, 1)
      | stop :: stops2 =>
        if stop then (SendCycleResult.stoppedDuringWait, 1)
        else
          match opens with
          | [] => (SendCycleResult.oracleOut, 1)
          | o :: os =>
            if o then
              let r := sendLoop ss os stops2
              (r.1, r.2 + 1)
            else (SendCycleResult.abandonedOpenFail, 1)

/-- One event seen by `msgQueue.runQueue`: a work signal (with the
oracles for the resulting `doWork` cycle), the per-peer `done` signal,
or global context cancellation. -/
inductive QEvent where
  | work (sends opens stops : List Bool)
  | doneSignal
  | ctxDone
deriving Repr, DecidableEq

/-- `msgQueue.runQueue`: processes work signals one after another, each
running a full `doWork` cycle, until `done` or the global context ends
the loop.  Returns the results of the cycles actually run. -/
def runQueue : List QEvent → List (SendCycleResult × Nat)
  | [] => []
  | QEvent.work ss os sts :: rest => sendLoop ss os sts :: runQueue rest
  | QEvent.doneSignal :: _ => []
  | QEvent.ctxDone :: _ => []

/-- State of a `msgQueue` as seen by the coordinator and its own task:
the peer id, the pending outbound message (`out`, nil when absent), the
mirror want list `wl`, the registration reference count, and whether the
one-slot `work` channel holds a signal. -/
structure MsgQueueS where
  p : Nat
  out : Option BitSwapMessage
  wl : List WEntry
  refcnt : Int
  workPending : Bool
deriving Repr, DecidableEq

/-- `WantManager.newMsgQueue`: empty mirror, no pending message,
reference count one, no work signalled. -/
def newMsgQueue (p : Nat) : MsgQueueS :=
  { p := p, out := none, wl := [], refcnt := 1, workPending := false }

/-- Body of the loop of `msgQueue.addMessage` on one entry: a cancel
that changes the mirror appends a cancel to the pending message; a want
that changes the mirror appends an add; unchanged mirrors leave the
message and the work flag alone. -/
def addMessageStep (acc : List WEntry × BitSwapMessage × Bool) (e : MsgEntry) :
    List WEntry × BitSwapMessage × Bool :=
  if e.cancel then
    let r := wlRemove acc.1 e.entry.cid
    if r.2 then (r.1, msgCancel (acc.2).1 e.entry.cid, true)
    else (r.1, (acc.2).1, (acc.2).2)
  else
    let r := wlAdd acc.1 e.entry.cid e.entry.priority
    if r.2 then (r.1, msgAddEntry (acc.2).1 e.entry.cid e.entry.priority, true)
    else (r.1, (acc.2).1, (acc.2).2)

/-- `msgQueue.addMessage`: allocate a fresh non-full message when none is
held, merge every entry, and signal work non-blockingly (the one-slot
channel coalesces repeated signals). -/
def addMessage (mq : MsgQueueS) (entries : List MsgEntry) : MsgQueueS :=
  let out0 := match mq.out with | none => bsmsgNew false | some m => m
  let res := entries.foldl addMessageStep (mq.wl, out0, false)
  { mq with
    wl := res.1,
    out := some (res.2).1,
    workPending := mq.workPending || (res.2).2 }

/-- State owned by the `WantManager.Run` loop: the peer registry, the
process-wide want list, and the want-list size gauge. -/
structure WMState where
  peers : List (Nat × MsgQueueS)
  wl : List WEntry
  gauge : Int
deriving Repr, DecidableEq

/-- Registry lookup (`pm.peers[p]`). -/
def peersLookup : List (Nat × MsgQueueS) → Nat → Option MsgQueueS
  | [], _ => none
  | q :: qs, p => if q.1 = p then some q.2 else peersLookup qs p

/-- Replace peer `t`'s queue by `f` of it, leaving every other entry
untouched. -/
def peersMapAt (ps : List (Nat × MsgQueueS)) (t : Nat) (f : MsgQueueS → MsgQueueS) :
    List (Nat × MsgQueueS) :=
  ps.map (fun q => if q.1 = t then (q.1, f q.2) else q)

/-- Mirror seeding in `WantManager.startPeerHandler`: each entry of the
process-wide want list is copied into the fresh queue's mirror. -/
def seedMirror (wl : List WEntry) : List WEntry :=
  wl.foldl (fun m e => (wlAddEntry m e).1) []

/-- Full want-list message built in `WantManager.startPeerHandler`: a
"full" message holding every entry's id and priority. -/
def fullWantlistMsg (wl : List WEntry) : BitSwapMessage :=
  wl.foldl (fun m e => msgAddEntry m e.cid e.priority) (bsmsgNew true)

/-- `WantManager.startPeerHandler`: an already-registered peer only gets
its reference count incremented; otherwise a fresh queue is built, its
mirror seeded with a copy of the current want list, the full list staged
as its pending message, work signalled, and the peer registered. -/
def startPeerHandler (pm : WMState) (p : Nat) : WMState :=
  match peersLookup pm.peers p with
  | some _ =>
    { pm with
      peers := peersMapAt pm.peers p (fun mq => { mq with refcnt := mq.refcnt + 1 }) }
  | none =>
    let mq : MsgQueueS :=
      { newMsgQueue p with
        wl := seedMirror pm.wl,
        out := some (fullWantlistMsg pm.wl),
        workPending := true }
    { pm with peers := pm.peers ++ [(p, mq)] }

/-- `WantManager.stopPeerHandler`: decrement the reference count; only
at zero close the `done` channel (second component `true`) and delete
the registration.  An unregistered peer is a silent no-op: the source
returns with only a `TODO: log error?` comment. -/
def stopPeerHandler (pm : WMState) (p : Nat) : WMState × Bool :=
  match peersLookup pm.peers p with
  | none => (pm, false)
  | some pq =>
    if pq.refcnt - 1 > 0 then
      ({ pm with
         peers := peersMapAt pm.peers p (fun mq => { mq with refcnt := mq.refcnt - 1 }) },
       false)
    else
      ({ pm with peers := pm.peers.filter (fun q => ¬ q.1 = p) }, true)

/-- Log lines emitted by `WantManager.stopPeerHandler`, by branch: the
function body contains no log call at all — in particular the
unregistered branch returns silently behind a `TODO: log error?`
comment (unlike, e.g., the skipped-target warning of the broadcast step
or the send-error log of `SendBlock`). -/
def stopPeerHandlerLogs (pm : WMState) (p : Nat) : List Nat :=
  match peersLookup pm.peers p with
  | none => []
  | some _ => []

/-- Body of the want/cancel application loop in `WantManager.Run`: a
cancel that removes the id decrements the gauge, a want that activates
the id increments it; other operations leave the gauge alone. -/
def applyWantEntry (acc : List WEntry × Int) (e : MsgEntry) : List WEntry × Int :=
  if e.cancel then
    let r := wlRemove acc.1 e.entry.cid
    (r.1, if r.2 then acc.2 - 1 else acc.2)
  else
    let r := wlAddEntry acc.1 e.entry
    (r.1, if r.2 then acc.2 + 1 else acc.2)

/-- The want/cancel application loop of `WantManager.Run` over a whole
incoming batch. -/
def applyWantBatch (wl : List WEntry) (gauge : Int) (es : List MsgEntry) :
    List WEntry × Int :=
  es.foldl applyWantEntry (wl, gauge)

/-- Well-formedness of a want list: unique content ids and strictly
positive reference counts. -/
def wlWellFormed (wl : List WEntry) : Prop :=
  (wl.map WEntry.cid).Nodup ∧ ∀ e ∈ wl, 1 ≤ e.refCnt

/-- Body of the explicit-target loop of the broadcast step of
`WantManager.Run`: an unregistered name is logged and skipped
(`continue`), a registered one gets the batch merged into its queue. -/
def forwardStep (entries : List MsgEntry)
    (acc : List (Nat × MsgQueueS) × List Nat × List Nat) (t : Nat) :
    List (Nat × MsgQueueS) × List Nat × List Nat :=
  match peersLookup acc.1 t with
  | none => (acc.1, (acc.2).1, (acc.2).2 ++ [t])
  | some _ =>
    (peersMapAt acc.1 t (fun mq => addMessage mq entries),
     (acc.2).1 ++ [t], (acc.2).2)

/-- The broadcast step of `WantManager.Run` on an incoming batch: with
no explicit targets the batch goes to every registered peer; with
targets, to each named registered peer, while unregistered names are
logged and skipped.  Returns the new registry, the names that received
the batch (in processing order) and the logged skipped names. -/
def forwardBatch (ps : List (Nat × MsgQueueS)) (targets : List Nat)
    (entries : List MsgEntry) :
    List (Nat × MsgQueueS) × List Nat × List Nat :=
  if targets.isEmpty then
    (ps.map (fun q => (q.1, addMessage q.2 entries)), ps.map Prod.fst, [])
  else
    targets.foldl (forwardStep entries) (ps, [], [])

/-- The rebroadcast-timer case of `WantManager.Run`: snapshot the
process-wide want list as non-cancel entries, and for every registered
peer replace its pending message by a fresh "full" message and merge the
snapshot through `addMessage`.  The mirror `p.wl` is not touched. -/
def rebroadcast (pm : WMState) : WMState :=
  let es := pm.wl.map (fun e => MsgEntry.mk false e)
  { pm with peers := pm.peers.map (fun q =>
      (q.1, addMessage { q.2 with out := some (bsmsgNew true) } es)) }

theorem mkEntriesAux_length (cancel : Bool) (i : Nat) (ks : List Nat) :
    (mkEntriesAux cancel i ks).length = ks.length := by
  induction ks generalizing i with
  | nil => rfl
  | cons k ks ih => simp [mkEntriesAux, ih]

theorem mkEntriesAux_get (cancel : Bool) (i : Nat) (ks : List Nat) (j : Nat)
    (hj : j < (mkEntriesAux cancel i ks).length) :
    ((mkEntriesAux cancel i ks).get ⟨j, hj⟩).entry.priority = kMaxPriority - (i + j) := by
  induction ks generalizing i j with
  | nil => simp [mkEntriesAux] at hj
  | cons k ks ih =>
    cases j with
    | zero => simp [mkEntriesAux]
    | succ j =>
      have hj2 : j < (mkEntriesAux cancel (i + 1) ks).length := by
        simpa [mkEntriesAux] using hj
      have := ih (i + 1) j hj2
      simp only [mkEntriesAux, List.get_cons_succ]
      rw [this]
      push_cast
      ring

/-- C8: entries of a batch built by `addEntries` carry strictly
decreasing priorities by position — the first id gets the highest
priority and each later id a strictly smaller one. -/
theorem addEntries_priorities_strictly_decreasing
    (ks : List Nat) (cancel : Bool) (i j : Nat)
    (hi : i < (mkEntries ks cancel).length)
    (hj : j < (mkEntries ks cancel).length)
    (hij : i < j) :
    ((mkEntries ks cancel).get ⟨j, hj⟩).entry.priority <
      ((mkEntries ks cancel).get ⟨i, hi⟩).entry.priority := by
  unfold mkEntries at *
  rw [mkEntriesAux_get cancel 0 ks i hi, mkEntriesAux_get cancel 0 ks j hj]
  omega

/-- Witness for C8 at the concrete batch `[5, 6, 7]`. -/
theorem addEntries_priorities_strictly_decreasing_witness :
    ((mkEntries [5, 6, 7] false).get ⟨1, by decide⟩).entry.priority <
      ((mkEntries [5, 6, 7] false).get ⟨0, by decide⟩).entry.priority :=
  addEntries_priorities_strictly_decreasing [5, 6, 7] false 0 1
    (by decide) (by decide) (by decide)

/-- C5: `SendBlock` invokes the envelope completion callback exactly
once, both when the underlying network send succeeds and when it
fails. -/
theorem sendBlock_callback_exactly_once (env : Envelope) (sendErr : Bool) :
    (SendBlock env sendErr).countP isSentCallback = 1 := by
  cases sendErr <;>
    simp [SendBlock, List.countP_cons, List.countP_append, isSentCallback]

/-- C9 counterexample: with the coordinator cancelled and its loop
exited (`pm.ctx` done, nothing receiving on `pm.peerReqs`, no capacity
on `pm.incoming`), `WantBlocks`, `CancelWants`, `Connected` and
`Disconnected` all return, but `ConnectedPeers` blocks: it does not
observe the cancellation, refuting the claim for the synchronous
peer-list query. -/
theorem connectedPeers_ignores_cancellation :
    connectedPeersOutcome false [] = none ∧
    wantBlocksSelect false true false ≠ [] ∧
    cancelWantsSelect false true ≠ [] ∧
    notifySelect false true ≠ [] := by
  decide

/-- C9 amended: once `pm.ctx` is cancelled, every event submission that
races the cancellation — `WantBlocks`/`CancelWants` batches and
`Connected`/`Disconnected` notifications — has a ready case and so
returns instead of blocking; `ConnectedPeers` has no cancellation case
and blocks whenever the loop is no longer receiving. -/
theorem producers_observe_shutdown_except_connectedPeers :
    (∀ r c : Bool, wantBlocksSelect r true c ≠ []) ∧
    (∀ r : Bool, cancelWantsSelect r true ≠ []) ∧
    (∀ r : Bool, notifySelect r true ≠ []) ∧
    (∀ ps : List Nat, connectedPeersOutcome false ps = none) := by
  refine ⟨?_, ?_, ?_, ?_⟩
  · intro r c; cases r <;> cases c <;> decide
  · intro r; cases r <;> decide
  · intro r; cases r <;> decide
  · intro ps; rfl

/-- C10: a cancel submission is immune to any caller deadline: its
outcome set coincides with `addEntries` under a never-done caller
context for every environment, it blocks (waits) exactly when the batch
is not yet accepted and the coordinator has not shut down, and — unlike
`WantBlocks`, whose caller deadline alone can make it return — no
caller-side condition can cut it short. -/
theorem cancelWants_never_races_caller_deadline :
    (∀ r p : Bool, cancelWantsSelect r p =
      addEntriesSelect ⟨r, p, false⟩) ∧
    (∀ r p : Bool, cancelWantsSelect r p = [] ↔ (r = false ∧ p = false)) ∧
    (SubmitResult.delivered ∈ wantBlocksSelect false false true ∨
      wantBlocksSelect false false true ≠ []) ∧
    cancelWantsSelect false false = [] := by
  refine ⟨?_, ?_, ?_, ?_⟩
  · intro r p; rfl
  · intro r p; cases r <;> cases p <;> decide
  · decide
  · decide

/-- C1 counterexample: a cycle whose first two transmissions fail and
whose reopens succeed performs a third transmission of the same message
(which here succeeds): three send attempts in one cycle, refuting
"exactly one reopen-and-resend attempt, not retried a third time". -/
theorem sendLoop_retries_a_third_time :
    sendLoop [false, false, true] [true, true] [false, false] =
      (SendCycleResult.sent, 3) := by
  decide

/-- C1 amended: on transmission failure the pipeline reopens and resends
the same message repeatedly — n failed sends with successful reopens
are followed by an (n+1)-th attempt — until a send succeeds, a reopen
fails, or `done`/shutdown fires during the retry delay; a failed reopen
abandons the cycle (the message is lost), a stop signal ends it, and the
pipeline itself survives any cycle outcome and still processes later
work signals. -/
theorem sendLoop_unbounded_retry :
    (∀ n : Nat,
      sendLoop (List.replicate n false ++ [true]) (List.replicate n true)
        (List.replicate n false) = (SendCycleResult.sent, n + 1)) ∧
    (∀ ss os sts : List Bool,
      sendLoop (false :: ss) (false :: os) (false :: sts) =
        (SendCycleResult.abandonedOpenFail, 1)) ∧
    (∀ ss os sts : List Bool,
      sendLoop (false :: ss) os (true :: sts) =
        (SendCycleResult.stoppedDuringWait, 1)) ∧
    (∀ c₁ c₂ : SendCycleResult × Nat, ∀ s₁ o₁ t₁ s₂ o₂ t₂ : List Bool,
      sendLoop s₁ o₁ t₁ = c₁ → sendLoop s₂ o₂ t₂ = c₂ →
      runQueue [QEvent.work s₁ o₁ t₁, QEvent.work s₂ o₂ t₂] = [c₁, c₂]) := by
  refine ⟨?_, ?_, ?_, ?_⟩
  · intro n
    induction n with
    | zero => rfl
    | succ n ih =>
      simp [List.replicate_succ, sendLoop, ih]
  · intro ss os sts; rfl
  · intro ss os sts; rfl
  · intro c₁ c₂ s₁ o₁ t₁ s₂ o₂ t₂ h₁ h₂
    simp [runQueue, h₁, h₂]

/-- Witness for the amended C1 at concrete oracles: two failed sends
with successful reopens then a success give three attempts, an
immediate reopen failure abandons after one attempt, and both cycles run
back to back in one queue. -/
theorem sendLoop_unbounded_retry_witness :
    runQueue [QEvent.work [false, false, true] [true, true] [false, false],
        QEvent.work [false] [false] [false]] =
      [(SendCycleResult.sent, 3), (SendCycleResult.abandonedOpenFail, 1)] :=
  (sendLoop_unbounded_retry.2.2.2) (SendCycleResult.sent, 3)
    (SendCycleResult.abandonedOpenFail, 1)
    [false, false, true] [true, true] [false, false]
    [false] [false] [false] (by decide) (by decide)

theorem peersLookup_peersMapAt (ps : List (Nat × MsgQueueS)) (t x : Nat)
    (f : MsgQueueS → MsgQueueS) :
    peersLookup (peersMapAt ps t f) x =
      if x = t then (peersLookup ps x).map f else peersLookup ps x := by
  induction ps with
  | nil =>
    simp only [peersMapAt, List.map_nil, peersLookup]
    split <;> rfl
  | cons q qs ih =>
    simp only [peersMapAt, List.map_cons] at ih ⊢
    by_cases hqt : q.1 = t
    · subst hqt
      by_cases hqx : q.1 = x
      · subst hqx
        simp [peersLookup]
      · have hxq : ¬ x = q.1 := fun h => hqx h.symm
        simp [peersLookup, hqx, hxq, ih]
    · by_cases hqx : q.1 = x
      · subst hqx
        have hxt : ¬ q.1 = t := hqt
        simp [peersLookup, hqt, hxt]
      · simp [peersLookup, hqt, hqx, ih]

theorem peersLookup_append (ps qs : List (Nat × MsgQueueS)) (x : Nat) :
    peersLookup (ps ++ qs) x =
      match peersLookup ps x with
      | some v => some v
      | none => peersLookup qs x := by
  induction ps with
  | nil => simp [peersLookup]
  | cons q ps ih =>
    by_cases hqx : q.1 = x
    · simp [peersLookup, hqx]
    · simp [peersLookup, hqx, ih]

theorem peersLookup_filter_ne (ps : List (Nat × MsgQueueS)) (p x : Nat) :
    peersLookup (ps.filter (fun q => ¬ q.1 = p)) x =
      if x = p then none else peersLookup ps x := by
  induction ps with
  | nil =>
    simp only [List.filter_nil, peersLookup]
    split <;> rfl
  | cons q qs ih =>
    by_cases hqp : q.1 = p
    · rw [List.filter_cons_of_neg (by simp [hqp])]
      rw [ih]
      by_cases hxp : x = p
      · simp [hxp]
      · have hqx : ¬ q.1 = x := fun h => hxp (by rw [← h, hqp])
        simp [peersLookup, hqx, hxp]
    · rw [List.filter_cons_of_pos (by simp [hqp])]
      by_cases hqx : q.1 = x
      · have hxp : ¬ x = p := fun h => hqp (by rw [hqx, h])
        simp [peersLookup, hqx, hxp]
      · simp only [peersLookup, if_neg hqx, ← decide_not]
        exact ih

theorem peersMapAt_length (ps : List (Nat × MsgQueueS)) (t : Nat)
    (f : MsgQueueS → MsgQueueS) :
    (peersMapAt ps t f).length = ps.length := by
  simp [peersMapAt]

theorem wlMem_append (a b : List WEntry) (c : Nat) :
    wlMem (a ++ b) c = (wlMem a c || wlMem b c) := by
  simp [wlMem]

theorem wlMem_eq_false_iff (w : List WEntry) (c : Nat) :
    wlMem w c = false ↔ ∀ e ∈ w, ¬ e.cid = c := by
  simp [wlMem]

theorem seedMirror_go (wl : List WEntry) (acc : List WEntry)
    (hnd : (wl.map WEntry.cid).Nodup)
    (hd : ∀ e ∈ wl, wlMem acc e.cid = false) :
    wl.foldl (fun m e => (wlAddEntry m e).1) acc = acc ++ wl := by
  induction wl generalizing acc with
  | nil => simp
  | cons e es ih =>
    have he : wlMem acc e.cid = false := hd e (List.mem_cons_self e es)
    simp only [List.foldl_cons]
    rw [show (wlAddEntry acc e).1 = acc ++ [e] by simp [wlAddEntry, he]]
    rw [ih (acc ++ [e]) (by simpa using hnd.of_cons)]
    · simp
    · intro e2 he2
      rw [wlMem_append]
      have h1 : wlMem acc e2.cid = false := hd e2 (List.mem_cons_of_mem e he2)
      have h2 : wlMem [e] e2.cid = false := by
        simp only [List.map_cons, List.nodup_cons] at hnd
        have h3 : ¬ e2.cid = e.cid := by
          intro hc
          exact hnd.1 (hc ▸ List.mem_map_of_mem WEntry.cid he2)
        have hne : ¬ e.cid = e2.cid := fun h => h3 h.symm
        simp [wlMem, hne]
      rw [h1, h2]
      rfl

theorem seedMirror_eq (wl : List WEntry) (hnd : (wl.map WEntry.cid).Nodup) :
    seedMirror wl = wl := by
  have := seedMirror_go wl [] hnd (by intro e _; rfl)
  simpa [seedMirror] using this

theorem fullWantlistMsg_go (wl : List WEntry) (m : BitSwapMessage) :
    wl.foldl (fun m e => msgAddEntry m e.cid e.priority) m =
      { m with wants := m.wants ++ wl.map (fun e => (e.cid, e.priority)) } := by
  induction wl generalizing m with
  | nil => simp
  | cons e es ih =>
    simp only [List.foldl_cons]
    rw [ih]
    simp [msgAddEntry]

theorem fullWantlistMsg_eq (wl : List WEntry) :
    fullWantlistMsg wl =
      { full := true, wants := wl.map (fun e => (e.cid, e.priority)),
        cancels := [], blocks := [] } := by
  simp [fullWantlistMsg, fullWantlistMsg_go, bsmsgNew]

theorem startPeerHandler_registered (pm : WMState) (p : Nat) (mq : MsgQueueS)
    (h : peersLookup pm.peers p = some mq) :
    startPeerHandler pm p =
      { pm with
        peers := peersMapAt pm.peers p (fun q => { q with refcnt := q.refcnt + 1 }) } := by
  simp only [startPeerHandler, h]

theorem startPeerHandler_unregistered (pm : WMState) (p : Nat)
    (h : peersLookup pm.peers p = none) :
    startPeerHandler pm p =
      { pm with
        peers := pm.peers ++
          [(p, ⟨p, some (fullWantlistMsg pm.wl), seedMirror pm.wl, 1, true⟩)] } := by
  simp only [startPeerHandler, h, newMsgQueue]

theorem stopPeerHandler_decrement (pm : WMState) (p : Nat) (mq : MsgQueueS)
    (h : peersLookup pm.peers p = some mq) (hgt : 1 < mq.refcnt) :
    stopPeerHandler pm p =
      ({ pm with
         peers := peersMapAt pm.peers p (fun q => { q with refcnt := q.refcnt - 1 }) },
       false) := by
  simp only [stopPeerHandler, h]
  rw [if_pos (by omega)]

theorem stopPeerHandler_remove (pm : WMState) (p : Nat) (mq : MsgQueueS)
    (h : peersLookup pm.peers p = some mq) (hle : mq.refcnt ≤ 1) :
    stopPeerHandler pm p =
      ({ pm with peers := pm.peers.filter (fun q => ¬ q.1 = p) }, true) := by
  simp only [stopPeerHandler, h]
  rw [if_neg (by omega)]

/-- C3: a connect event for an already-registered peer only increments
that registration's reference count — same registry size, every other
queue untouched, no new message, want list and gauge untouched; a
connect event for an unregistered peer registers a fresh queue whose
mirror is a copy of the process-wide want list, whose first pending
message is that full list, with work signalled and reference count one,
leaving every other registration and the global state unchanged. -/
theorem connect_event_handler (pm : WMState) (p : Nat) :
    (∀ mq, peersLookup pm.peers p = some mq →
      peersLookup (startPeerHandler pm p).peers p =
          some { mq with refcnt := mq.refcnt + 1 } ∧
      (∀ x, ¬ x = p →
        peersLookup (startPeerHandler pm p).peers x = peersLookup pm.peers x) ∧
      (startPeerHandler pm p).peers.length = pm.peers.length ∧
      (startPeerHandler pm p).wl = pm.wl ∧
      (startPeerHandler pm p).gauge = pm.gauge) ∧
    (peersLookup pm.peers p = none → (pm.wl.map WEntry.cid).Nodup →
      peersLookup (startPeerHandler pm p).peers p =
        some { p := p,
               out := some { full := true,
                             wants := pm.wl.map (fun e => (e.cid, e.priority)),
                             cancels := [], blocks := [] },
               wl := pm.wl, refcnt := 1, workPending := true } ∧
      (∀ x, ¬ x = p →
        peersLookup (startPeerHandler pm p).peers x = peersLookup pm.peers x) ∧
      (startPeerHandler pm p).peers.length = pm.peers.length + 1 ∧
      (startPeerHandler pm p).wl = pm.wl ∧
      (startPeerHandler pm p).gauge = pm.gauge) := by
  constructor
  · intro mq h
    rw [startPeerHandler_registered pm p mq h]
    refine ⟨?_, ?_, ?_, rfl, rfl⟩
    · rw [peersLookup_peersMapAt, if_pos rfl, h]
      rfl
    · intro x hx
      rw [peersLookup_peersMapAt, if_neg hx]
    · simpa using peersMapAt_length pm.peers p
        (fun q => { q with refcnt := q.refcnt + 1 })
  · intro h hnd
    rw [startPeerHandler_unregistered pm p h]
    refine ⟨?_, ?_, ?_, rfl, rfl⟩
    · rw [peersLookup_append, h]
      simp [peersLookup, seedMirror_eq pm.wl hnd, fullWantlistMsg_eq]
    · intro x hx
      rw [peersLookup_append]
      cases hres : peersLookup pm.peers x with
      | some v => rfl
      | none =>
        have hpx : ¬ p = x := fun hh => hx hh.symm
        simp [peersLookup, hpx]
    · simp

/-- Witness for C3: connecting peer 7 to a manager with empty registry
and want list `[(1, 5)]` registers it with mirror copy, full-list
message and work signalled. -/
theorem connect_event_handler_witness :
    peersLookup
        (startPeerHandler { peers := [], wl := [⟨1, 5, 1⟩], gauge := 1 } 7).peers 7 =
      some { p := 7,
             out := some { full := true, wants := [(1, 5)], cancels := [], blocks := [] },
             wl := [⟨1, 5, 1⟩], refcnt := 1, workPending := true } :=
  ((connect_event_handler { peers := [], wl := [⟨1, 5, 1⟩], gauge := 1 } 7).2
    rfl (by decide)).1

/-- C4 (amended): a disconnect event decrements the registration's
reference count; only at zero is the done channel closed (termination
signal) and the peer removed; a disconnect for an unregistered peer is
a silent no-op — nothing is logged, `stopPeerHandler` emitting no log
line in any branch; in particular a peer connected by two connect
events survives the first disconnect (still registered, no signal) and
is torn down only by the second. -/
theorem disconnect_event_handler (pm : WMState) (p : Nat) :
    (peersLookup pm.peers p = none → stopPeerHandler pm p = (pm, false)) ∧
    (∀ mq, peersLookup pm.peers p = some mq → 1 < mq.refcnt →
      (stopPeerHandler pm p).2 = false ∧
      peersLookup ((stopPeerHandler pm p).1).peers p =
        some { mq with refcnt := mq.refcnt - 1 } ∧
      (∀ x, ¬ x = p →
        peersLookup ((stopPeerHandler pm p).1).peers x = peersLookup pm.peers x) ∧
      ((stopPeerHandler pm p).1).wl = pm.wl) ∧
    (∀ mq, peersLookup pm.peers p = some mq → mq.refcnt ≤ 1 →
      (stopPeerHandler pm p).2 = true ∧
      peersLookup ((stopPeerHandler pm p).1).peers p = none ∧
      (∀ x, ¬ x = p →
        peersLookup ((stopPeerHandler pm p).1).peers x = peersLookup pm.peers x) ∧
      ((stopPeerHandler pm p).1).wl = pm.wl) ∧
    (peersLookup pm.peers p = none →
      (stopPeerHandler (startPeerHandler (startPeerHandler pm p) p) p).2 = false ∧
      (peersLookup
        ((stopPeerHandler (startPeerHandler (startPeerHandler pm p) p) p).1).peers
        p).isSome = true ∧
      (stopPeerHandler
        ((stopPeerHandler (startPeerHandler (startPeerHandler pm p) p) p).1) p).2 =
        true ∧
      peersLookup
        ((stopPeerHandler
          ((stopPeerHandler (startPeerHandler (startPeerHandler pm p) p) p).1) p).1).peers
        p = none) ∧
    stopPeerHandlerLogs pm p = [] := by
  refine ⟨?_, ?_, ?_, ?_, ?_⟩
  · intro h
    simp only [stopPeerHandler, h]
  · intro mq h hgt
    rw [stopPeerHandler_decrement pm p mq h hgt]
    refine ⟨rfl, ?_, ?_, rfl⟩
    · rw [peersLookup_peersMapAt, if_pos rfl, h]
      rfl
    · intro x hx
      rw [peersLookup_peersMapAt, if_neg hx]
  · intro mq h hle
    rw [stopPeerHandler_remove pm p mq h hle]
    refine ⟨rfl, ?_, ?_, rfl⟩
    · rw [peersLookup_filter_ne, if_pos rfl]
    · intro x hx
      rw [peersLookup_filter_ne, if_neg hx]
  · intro h
    have l1 : peersLookup (startPeerHandler pm p).peers p =
        some ⟨p, some (fullWantlistMsg pm.wl), seedMirror pm.wl, 1, true⟩ := by
      rw [startPeerHandler_unregistered pm p h]
      rw [peersLookup_append, h]
      simp [peersLookup]
    have l2 : peersLookup (startPeerHandler (startPeerHandler pm p) p).peers p =
        some ⟨p, some (fullWantlistMsg pm.wl), seedMirror pm.wl, 2, true⟩ := by
      rw [startPeerHandler_registered (startPeerHandler pm p) p _ l1]
      rw [peersLookup_peersMapAt, if_pos rfl, l1]
      rfl
    have d1 := stopPeerHandler_decrement (startPeerHandler (startPeerHandler pm p) p)
      p _ l2 (by norm_num)
    have l3 : peersLookup
        ((stopPeerHandler (startPeerHandler (startPeerHandler pm p) p) p).1).peers p =
        some ⟨p, some (fullWantlistMsg pm.wl), seedMirror pm.wl, 1, true⟩ := by
      rw [d1]
      rw [peersLookup_peersMapAt, if_pos rfl, l2]
      rfl
    have d2 := stopPeerHandler_remove
      ((stopPeerHandler (startPeerHandler (startPeerHandler pm p) p) p).1) p _ l3
      (by norm_num)
    refine ⟨by rw [d1], by rw [l3]; rfl, by rw [d2], ?_⟩
    rw [d2]
    rw [peersLookup_filter_ne, if_pos rfl]
  · cases h : peersLookup pm.peers p <;> simp [stopPeerHandlerLogs, h]

/-- Witness for C4: peer 7 connected twice to an empty manager survives
the first disconnect and is removed with a termination signal by the
second. -/
theorem disconnect_event_handler_witness :
    (stopPeerHandler
      (startPeerHandler (startPeerHandler { peers := [], wl := [], gauge := 0 } 7) 7)
      7).2 = false ∧
    (stopPeerHandler
      ((stopPeerHandler
        (startPeerHandler (startPeerHandler { peers := [], wl := [], gauge := 0 } 7) 7)
        7).1) 7).2 = true := by
  have hs :=
    ((((disconnect_event_handler { peers := [], wl := [], gauge := 0 } 7).2).2).2).1 rfl
  exact ⟨hs.1, ((hs.2).2).1⟩

theorem peersLookup_peersMapAt_isSome (ps : List (Nat × MsgQueueS)) (t x : Nat)
    (f : MsgQueueS → MsgQueueS) :
    (peersLookup (peersMapAt ps t f) x).isSome = (peersLookup ps x).isSome := by
  rw [peersLookup_peersMapAt]
  split
  · simp
  · rfl

theorem forwardFold_logs (es : List MsgEntry) (ts : List Nat)
    (ps : List (Nat × MsgQueueS)) (r s : List Nat) :
    ((ts.foldl (forwardStep es) (ps, r, s)).2).1 =
      r ++ ts.filter (fun t => (peersLookup ps t).isSome) ∧
    ((ts.foldl (forwardStep es) (ps, r, s)).2).2 =
      s ++ ts.filter (fun t => !(peersLookup ps t).isSome) := by
  induction ts generalizing ps r s with
  | nil => simp
  | cons t ts ih =>
    simp only [List.foldl_cons]
    cases hl : peersLookup ps t with
    | none =>
      rw [forwardStep, hl]
      have := ih ps r (s ++ [t])
      rw [List.filter_cons_of_neg (by simp [hl]),
        List.filter_cons_of_pos (by simp [hl])]
      refine ⟨this.1, ?_⟩
      rw [this.2]
      simp
    | some mq =>
      rw [forwardStep, hl]
      have := ih (peersMapAt ps t (fun q => addMessage q es)) (r ++ [t]) s
      have hfilt1 : ts.filter
          (fun u => (peersLookup (peersMapAt ps t (fun q => addMessage q es)) u).isSome) =
          ts.filter (fun u => (peersLookup ps u).isSome) :=
        List.filter_congr (fun u _ => by rw [peersLookup_peersMapAt_isSome])
      have hfilt2 : ts.filter
          (fun u => !(peersLookup (peersMapAt ps t (fun q => addMessage q es)) u).isSome) =
          ts.filter (fun u => !(peersLookup ps u).isSome) :=
        List.filter_congr (fun u _ => by rw [peersLookup_peersMapAt_isSome])
      rw [List.filter_cons_of_pos (by simp [hl]),
        List.filter_cons_of_neg (by simp [hl])]
      refine ⟨?_, ?_⟩
      · rw [this.1, hfilt1]
        simp
      · rw [this.2, hfilt2]

theorem forwardFold_lookup_notmem (es : List MsgEntry) (ts : List Nat)
    (ps : List (Nat × MsgQueueS)) (r s : List Nat) (x : Nat) (hx : ¬ x ∈ ts) :
    peersLookup ((ts.foldl (forwardStep es) (ps, r, s)).1) x = peersLookup ps x := by
  induction ts generalizing ps r s with
  | nil => rfl
  | cons t ts ih =>
    have hxt : ¬ x = t := fun h => hx (h ▸ List.mem_cons_self t ts)
    have hxts : ¬ x ∈ ts := fun h => hx (List.mem_cons_of_mem t h)
    simp only [List.foldl_cons]
    cases hl : peersLookup ps t with
    | none =>
      rw [forwardStep, hl]
      exact ih ps r (s ++ [t]) hxts
    | some mq =>
      rw [forwardStep, hl]
      rw [ih _ (r ++ [t]) s hxts]
      rw [peersLookup_peersMapAt, if_neg hxt]

theorem forwardFold_lookup_mem (es : List MsgEntry) (ts : List Nat)
    (ps : List (Nat × MsgQueueS)) (r s : List Nat) (x : Nat) (mq : MsgQueueS)
    (hnd : ts.Nodup) (hx : x ∈ ts) (hmq : peersLookup ps x = some mq) :
    peersLookup ((ts.foldl (forwardStep es) (ps, r, s)).1) x =
      some (addMessage mq es) := by
  induction ts generalizing ps r s with
  | nil => cases hx
  | cons t ts ih =>
    simp only [List.foldl_cons]
    by_cases hxt : x = t
    · subst hxt
      rw [forwardStep, hmq]
      have hxts : ¬ x ∈ ts := (List.nodup_cons.mp hnd).1
      rw [forwardFold_lookup_notmem es ts _ (r ++ [x]) s x hxts]
      rw [peersLookup_peersMapAt, if_pos rfl, hmq]
      rfl
    · have hxts : x ∈ ts := (List.mem_cons.mp hx).resolve_left hxt
      cases hl : peersLookup ps t with
      | none =>
        rw [forwardStep, hl]
        exact ih ps r (s ++ [t]) (List.nodup_cons.mp hnd).2 hxts hmq
      | some mq2 =>
        rw [forwardStep, hl]
        refine ih _ (r ++ [t]) s (List.nodup_cons.mp hnd).2 hxts ?_
        rw [peersLookup_peersMapAt, if_neg hxt, hmq]

theorem peersLookup_map_values (ps : List (Nat × MsgQueueS))
    (f : MsgQueueS → MsgQueueS) (x : Nat) :
    peersLookup (ps.map (fun q => (q.1, f q.2))) x = (peersLookup ps x).map f := by
  induction ps with
  | nil => rfl
  | cons q qs ih =>
    by_cases hqx : q.1 = x
    · simp [peersLookup, hqx]
    · simp [peersLookup, hqx, ih]

/-- C7: forwarding an incoming batch with an empty target set adds it to
every registered peer's queue (recipients are exactly the registry, no
skip logged); with named targets only the named registered peers' queues
get the batch, each unregistered name is logged and skipped, untargeted
queues are untouched, and no error is surfaced (the loop is total and
merely records the skipped names). -/
theorem run_forward_batch (ps : List (Nat × MsgQueueS)) (ts : List Nat)
    (es : List MsgEntry) (x : Nat) :
    ((forwardBatch ps [] es).2 = (ps.map Prod.fst, ([] : List Nat)) ∧
     peersLookup (forwardBatch ps [] es).1 x =
       (peersLookup ps x).map (fun mq => addMessage mq es)) ∧
    (¬ ts = [] →
      ((forwardBatch ps ts es).2).1 =
        ts.filter (fun t => (peersLookup ps t).isSome) ∧
      ((forwardBatch ps ts es).2).2 =
        ts.filter (fun t => !(peersLookup ps t).isSome) ∧
      (¬ x ∈ ts →
        peersLookup (forwardBatch ps ts es).1 x = peersLookup ps x) ∧
      (ts.Nodup → x ∈ ts → ∀ mq, peersLookup ps x = some mq →
        peersLookup (forwardBatch ps ts es).1 x = some (addMessage mq es))) := by
  constructor
  · constructor
    · simp [forwardBatch]
    · simp only [forwardBatch, List.isEmpty_nil, if_true]
      exact peersLookup_map_values ps (fun mq => addMessage mq es) x
  · intro hts
    have hemp : ts.isEmpty = false := by
      cases ts with
      | nil => exact absurd rfl hts
      | cons a l => rfl
    simp only [forwardBatch, hemp, Bool.false_eq_true, if_false]
    refine ⟨?_, ?_, ?_, ?_⟩
    · simpa using (forwardFold_logs es ts ps [] []).1
    · simpa using (forwardFold_logs es ts ps [] []).2
    · intro hx
      exact forwardFold_lookup_notmem es ts ps [] [] x hx
    · intro hnd hx mq hmq
      exact forwardFold_lookup_mem es ts ps [] [] x mq hnd hx hmq

/-- Witness for C7: with peers 1 and 2 registered and targets `[1, 3]`,
peer 1 receives the batch, unregistered 3 is logged and skipped, and
peer 2's queue is untouched. -/
theorem run_forward_batch_witness :
    ((forwardBatch [(1, newMsgQueue 1), (2, newMsgQueue 2)] [1, 3]
        [⟨false, ⟨9, 5, 1⟩⟩]).2).1 = [1] ∧
    ((forwardBatch [(1, newMsgQueue 1), (2, newMsgQueue 2)] [1, 3]
        [⟨false, ⟨9, 5, 1⟩⟩]).2).2 = [3] ∧
    peersLookup (forwardBatch [(1, newMsgQueue 1), (2, newMsgQueue 2)] [1, 3]
        [⟨false, ⟨9, 5, 1⟩⟩]).1 2 = some (newMsgQueue 2) := by
  have h := (run_forward_batch [(1, newMsgQueue 1), (2, newMsgQueue 2)] [1, 3]
    [⟨false, ⟨9, 5, 1⟩⟩] 2).2 (by decide)
  exact ⟨h.1, (h.2).1, ((h.2).2).1 (by decide)⟩

/-- C2 (code bug): at the rebroadcast tick the per-peer mirror is not
reset — only the pending message slot is replaced — so every snapshot
entry already present in the mirror is suppressed by `addMessage`: with
process-wide want list `{1}` and a peer whose mirror already holds id 1,
the peer's pending "full" message stays empty after the tick and no work
is signalled, instead of the mirror being cleared and the message
equalling the non-empty full snapshot. -/
theorem rebroadcast_mirror_not_reset :
    rebroadcast { peers := [(7, ⟨7, none, [⟨1, 5, 1⟩], 1, false⟩)],
                  wl := [⟨1, 5, 1⟩], gauge := 1 } =
      { peers := [(7, ⟨7, some (bsmsgNew true), [⟨1, 5, 2⟩], 1, false⟩)],
        wl := [⟨1, 5, 1⟩], gauge := 1 } ∧
    msgEmpty (bsmsgNew true) = true ∧
    ¬ (bsmsgNew true).wants = [(1, 5)] := by
  decide

theorem map_cid_preserved (w : List WEntry) (f : WEntry → WEntry)
    (hf : ∀ x, (f x).cid = x.cid) :
    (w.map f).map WEntry.cid = w.map WEntry.cid := by
  induction w with
  | nil => rfl
  | cons x xs ih => simp [hf, ih]

theorem wlMem_false_of_neg (w : List WEntry) (c : Nat) (h : ¬ wlMem w c = true) :
    wlMem w c = false := by
  cases hb : wlMem w c with
  | false => rfl
  | true => exact absurd hb h

theorem wlAddEntry_spec (w : List WEntry) (e : WEntry)
    (hw : wlWellFormed w) (he : 1 ≤ e.refCnt) :
    wlWellFormed (wlAddEntry w e).1 ∧
    ((wlAddEntry w e).2 = !(wlMem w e.cid)) ∧
    ((wlAddEntry w e).1.length =
      if (wlAddEntry w e).2 then w.length + 1 else w.length) := by
  by_cases h : wlMem w e.cid
  · simp only [wlAddEntry, if_pos h]
    refine ⟨⟨?_, ?_⟩, by simp [h], by simp⟩
    · rw [map_cid_preserved]
      · exact hw.1
      · intro x
        split <;> rfl
    · intro y hy
      obtain ⟨x, hx, rfl⟩ := List.mem_map.mp hy
      have hx1 := hw.2 x hx
      split
      · simp only
        omega
      · exact hx1
  · simp only [wlAddEntry, if_neg h]
    have h0 := wlMem_false_of_neg w e.cid h
    have hne := (wlMem_eq_false_iff w e.cid).mp h0
    refine ⟨⟨?_, ?_⟩, by simp [h0], by simp⟩
    · rw [List.map_append]
      rw [List.nodup_append]
      refine ⟨hw.1, by simp, ?_⟩
      intro a ha hb
      simp only [List.map_cons, List.map_nil, List.mem_singleton] at hb
      obtain ⟨x, hx, hxc⟩ := List.mem_map.mp ha
      exact hne x hx (by rw [hxc, hb])
    · intro y hy
      rcases List.mem_append.mp hy with hy1 | hy2
      · exact hw.2 y hy1
      · rw [List.mem_singleton.mp hy2]
        exact he

theorem filter_ne_of_not_mem (w : List WEntry) (c : Nat)
    (h : wlMem w c = false) :
    w.filter (fun x => ¬ x.cid = c) = w := by
  rw [List.filter_eq_self]
  intro a ha
  simp [(wlMem_eq_false_iff w c).mp h a ha]

theorem filter_ne_length (w : List WEntry) (c : Nat)
    (hnd : (w.map WEntry.cid).Nodup) (hmem : wlMem w c = true) :
    (w.filter (fun x => ¬ x.cid = c)).length + 1 = w.length := by
  induction w with
  | nil => simp [wlMem] at hmem
  | cons x xs ih =>
    simp only [List.map_cons, List.nodup_cons] at hnd
    by_cases hxc : x.cid = c
    · rw [List.filter_cons_of_neg (by simp [hxc])]
      have hxs : wlMem xs c = false := by
        cases hb : wlMem xs c with
        | false => rfl
        | true =>
          obtain ⟨y, hy, hyc⟩ := List.any_eq_true.mp hb
          have hyc2 : y.cid = c := by simpa using hyc
          exact absurd (by rw [hxc, ← hyc2]; exact List.mem_map_of_mem WEntry.cid hy)
            hnd.1
      rw [filter_ne_of_not_mem xs c hxs]
      simp
    · rw [List.filter_cons_of_pos (by simp [hxc])]
      have hmem2 : wlMem xs c = true := by
        simp only [wlMem, List.any_cons] at hmem
        rcases Bool.or_eq_true_iff.mp hmem with h1 | h1
        · exact absurd (by simpa using h1) hxc
        · exact h1
      simp only [List.length_cons]
      rw [← ih hnd.2 hmem2]

theorem nodup_cid_unique (w : List WEntry) (hnd : (w.map WEntry.cid).Nodup)
    (x y : WEntry) (hx : x ∈ w) (hy : y ∈ w) (hc : x.cid = y.cid) : x = y :=
  List.inj_on_of_nodup_map hnd hx hy hc

theorem wlRemove_spec (w : List WEntry) (c : Nat) (hw : wlWellFormed w) :
    wlWellFormed (wlRemove w c).1 ∧
    ((wlRemove w c).2 = true → (wlRemove w c).1.length + 1 = w.length) ∧
    ((wlRemove w c).2 = false → (wlRemove w c).1.length = w.length) := by
  cases hf : w.find? (fun x => x.cid = c) with
  | none =>
    simp only [wlRemove, hf]
    refine ⟨hw, by simp, by simp⟩
  | some e =>
    have hmem : e ∈ w := List.mem_of_find?_eq_some hf
    have hcid : e.cid = c := by simpa using List.find?_some hf
    have href : 1 ≤ e.refCnt := hw.2 e hmem
    have hmemc : wlMem w c = true :=
      List.any_eq_true.mpr ⟨e, hmem, by simp [hcid]⟩
    by_cases hle : e.refCnt - 1 ≤ 0
    · simp only [wlRemove, hf, if_pos hle]
      refine ⟨⟨?_, ?_⟩, ?_, ?_⟩
      · exact hw.1.sublist ((List.filter_sublist w).map WEntry.cid)
      · intro y hy
        exact hw.2 y (List.mem_of_mem_filter hy)
      · intro _
        exact filter_ne_length w c hw.1 hmemc
      · intro h
        cases h
    · simp only [wlRemove, hf, if_neg hle]
      refine ⟨⟨?_, ?_⟩, ?_, ?_⟩
      · rw [map_cid_preserved]
        · exact hw.1
        · intro x
          split <;> rfl
      · intro y hy
        obtain ⟨x, hx, rfl⟩ := List.mem_map.mp hy
        by_cases hxc : x.cid = c
        · have hxe : x = e := nodup_cid_unique w hw.1 x e hx hmem (by rw [hxc, hcid])
          rw [if_pos hxc, hxe]
          simp only
          omega
        · rw [if_neg hxc]
          exact hw.2 x hx
      · intro h
        cases h
      · intro _
        simp

theorem applyWantEntry_cancel (wl : List WEntry) (gauge : Int) (e : MsgEntry)
    (hc : e.cancel = true) :
    applyWantEntry (wl, gauge) e =
      ((wlRemove wl e.entry.cid).1,
       if (wlRemove wl e.entry.cid).2 then gauge - 1 else gauge) := by
  simp [applyWantEntry, hc]

theorem applyWantEntry_want (wl : List WEntry) (gauge : Int) (e : MsgEntry)
    (hc : e.cancel = false) :
    applyWantEntry (wl, gauge) e =
      ((wlAddEntry wl e.entry).1,
       if (wlAddEntry wl e.entry).2 then gauge + 1 else gauge) := by
  simp [applyWantEntry, hc]

theorem applyWantEntry_spec (wl : List WEntry) (gauge : Int) (e : MsgEntry)
    (hw : wlWellFormed wl) (hg : gauge = wl.length) (he : 1 ≤ e.entry.refCnt) :
    wlWellFormed (applyWantEntry (wl, gauge) e).1 ∧
    (applyWantEntry (wl, gauge) e).2 =
      (((applyWantEntry (wl, gauge) e).1).length : Int) := by
  cases hc : e.cancel with
  | true =>
    obtain ⟨h1, h2, h3⟩ := wlRemove_spec wl e.entry.cid hw
    rw [applyWantEntry_cancel wl gauge e hc]
    refine ⟨h1, ?_⟩
    cases hb : (wlRemove wl e.entry.cid).2 with
    | false =>
      have hlen := h3 hb
      rw [if_neg (by simp [hb])]
      simp only
      omega
    | true =>
      have hlen := h2 hb
      rw [if_pos (by simp [hb])]
      simp only
      omega
  | false =>
    obtain ⟨h1, h2, h3⟩ := wlAddEntry_spec wl e.entry hw he
    rw [applyWantEntry_want wl gauge e hc]
    refine ⟨h1, ?_⟩
    cases hb : (wlAddEntry wl e.entry).2 with
    | false =>
      rw [hb] at h3
      simp at h3
      rw [if_neg (by simp [hb])]
      simp only
      omega
    | true =>
      rw [hb] at h3
      simp at h3
      rw [if_pos (by simp [hb])]
      simp only
      omega

/-- C6: processing a want/cancel batch in `Run` keeps the gauge equal to
the number of active ids of the process-wide want list (the gauge moves
exactly on 0→1 activations and 1→0 deactivations, and the list stays
well formed); moreover a want merged onto an already-active id leaves
the gauge unchanged, as does a cancel that leaves the refcount
positive. -/
theorem gauge_tracks_wantlist_size (wl : List WEntry) (gauge : Int)
    (es : List MsgEntry)
    (hw : wlWellFormed wl) (hg : gauge = wl.length)
    (hes : ∀ e ∈ es, 1 ≤ e.entry.refCnt) :
    (wlWellFormed (applyWantBatch wl gauge es).1 ∧
     (applyWantBatch wl gauge es).2 =
       (((applyWantBatch wl gauge es).1).length : Int)) ∧
    (∀ e : MsgEntry, e.cancel = false → wlMem wl e.entry.cid = true →
      (applyWantEntry (wl, gauge) e).2 = gauge) ∧
    (∀ e : MsgEntry, e.cancel = true →
      (∃ x ∈ wl, x.cid = e.entry.cid ∧ 2 ≤ x.refCnt) →
      (applyWantEntry (wl, gauge) e).2 = gauge) := by
  refine ⟨?_, ?_, ?_⟩
  · induction es generalizing wl gauge with
    | nil => exact ⟨hw, by simpa [applyWantBatch] using hg⟩
    | cons e es ih =>
      have hstep := applyWantEntry_spec wl gauge e hw hg
        (hes e (List.mem_cons_self e es))
      have hes2 : ∀ x ∈ es, 1 ≤ x.entry.refCnt :=
        fun x hx => hes x (List.mem_cons_of_mem e hx)
      have hrec := ih (applyWantEntry (wl, gauge) e).1
        (applyWantEntry (wl, gauge) e).2 hstep.1 hstep.2 hes2
      simpa [applyWantBatch, List.foldl_cons] using hrec
  · intro e hc hmem
    rw [applyWantEntry_want wl gauge e hc]
    have hb : (wlAddEntry wl e.entry).2 = false := by
      simp [wlAddEntry, hmem]
    rw [if_neg (by simp [hb])]
  · intro e hc hx
    obtain ⟨x, hxmem, hxc, hxref⟩ := hx
    rw [applyWantEntry_cancel wl gauge e hc]
    obtain ⟨y, hfy⟩ : ∃ y, wl.find? (fun z => z.cid = e.entry.cid) = some y := by
      have hs : (wl.find? (fun z => z.cid = e.entry.cid)).isSome := by
        rw [List.find?_isSome]
        exact ⟨x, hxmem, by simp [hxc]⟩
      exact Option.isSome_iff_exists.mp hs
    have hymem : y ∈ wl := List.mem_of_find?_eq_some hfy
    have hyc : y.cid = e.entry.cid := by simpa using List.find?_some hfy
    have hyx : y = x := nodup_cid_unique wl hw.1 y x hymem hxmem (by rw [hyc, hxc])
    have hb : (wlRemove wl e.entry.cid).2 = false := by
      simp only [wlRemove, hfy]
      rw [if_neg (by rw [hyx]; omega)]
    rw [if_neg (by simp [hb])]

/-- Witness for C6: starting from the empty want list and gauge 0, the
batch want 1, want 1, cancel 1, cancel 1, want 2 ends with gauge equal
to the final want-list size. -/
theorem gauge_tracks_wantlist_size_witness :
    (applyWantBatch [] 0 [⟨false, ⟨1, 9, 1⟩⟩, ⟨false, ⟨1, 8, 1⟩⟩, ⟨true, ⟨1, 0, 1⟩⟩,
        ⟨true, ⟨1, 0, 1⟩⟩, ⟨false, ⟨2, 7, 1⟩⟩]).2 =
      (((applyWantBatch [] 0 [⟨false, ⟨1, 9, 1⟩⟩, ⟨false, ⟨1, 8, 1⟩⟩, ⟨true, ⟨1, 0, 1⟩⟩,
        ⟨true, ⟨1, 0, 1⟩⟩, ⟨false, ⟨2, 7, 1⟩⟩]).1).length : Int) :=
  ((gauge_tracks_wantlist_size [] 0 [⟨false, ⟨1, 9, 1⟩⟩, ⟨false, ⟨1, 8, 1⟩⟩,
      ⟨true, ⟨1, 0, 1⟩⟩, ⟨true, ⟨1, 0, 1⟩⟩, ⟨false, ⟨2, 7, 1⟩⟩]
    (by constructor <;> simp) rfl (by decide)).1).2

/-- C4 counterexample (to the original wording): disconnecting the
unregistered peer 7 from a manager with an empty registry leaves the
state untouched and signals nothing — a no-op — but, contrary to the
claim, nothing is logged either: `stopPeerHandler` emits no log line
(the source returns behind a `TODO: log error?` comment). -/
theorem unregistered_disconnect_not_logged :
    stopPeerHandler { peers := [], wl := [], gauge := 0 } 7 =
      ({ peers := [], wl := [], gauge := 0 }, false) ∧
    stopPeerHandlerLogs { peers := [], wl := [], gauge := 0 } 7 = [] := by
  decide
